import Mathlib

/-!
Verification of the HealMate tarot RAG subsystem.

Shallow embedding of the card-corpus builder (scripts/data_pipeline.py,
scripts/validate_tarot_json.py), the retrieval query service
(services/rag.py), the embedding provider adapters, the collection
loader, and the random-draw fallback (services/tarot.py).
-/

namespace HealMate

/-! ### Constants from scripts/data_pipeline.py -/

def MAJOR_ARCANA_ORDER : List String :=
  ["The Fool", "The Magician", "The High Priestess", "The Empress", "The Emperor",
   "The Hierophant", "The Lovers", "The Chariot", "Strength", "The Hermit",
   "Wheel of Fortune", "Justice", "The Hanged Man", "Death", "Temperance",
   "The Devil", "The Tower", "The Star", "The Moon", "The Sun", "Judgement", "The World"]

def MINOR_ARCANA_SUITS : List String := ["Wands", "Cups", "Swords", "Pentacles"]

def MINOR_ARCANA_RANKS : List String :=
  ["Ace", "Two", "Three", "Four", "Five", "Six", "Seven", "Eight", "Nine", "Ten",
   "Page", "Knight", "Queen", "King"]

/-- Canonical names of the standard 78-card deck, in the order
`step_fetch_data` generates them: the 22 Major names, then for each suit
every rank as the string "Rank of Suit". -/
def canonicalNames : List String :=
  MAJOR_ARCANA_ORDER ++
    MINOR_ARCANA_SUITS.flatMap (fun suit =>
      MINOR_ARCANA_RANKS.map (fun rank => rank ++ " of " ++ suit))

/-! ### Data model -/

/-- Raw card dict as read from tarot_raw.json: key "name_en" is always
accessed directly (KeyError on absence is outside the model); the other
keys are read with .get and a default, so they are Options here. -/
structure RawCard where
  name_en : String
  upright : Option String
  reversed : Option String
  source : Option String
deriving DecidableEq

/-- One orientation-specific card dict before id assignment. -/
structure StructuredCard where
  name : String
  arcana : String
  orientation : String
  meaning : String
  source : String
deriving DecidableEq

/-- One finished corpus entry, after id assignment. -/
structure CardRecord where
  name : String
  arcana : String
  orientation : String
  meaning : String
  source : String
  id : Nat
deriving DecidableEq

/-! ### Corpus builder: step_process_and_validate_data -/

/-- Python substring membership `sub in s`, on the character lists. -/
def strContains (s sub : String) : Bool :=
  (List.range (s.data.length + 1)).any fun i => sub.data.isPrefixOf (s.data.drop i)

/-- Arcana classification: `"Major" if name in MAJOR_ARCANA_ORDER else "Minor"`. -/
def classifyArcana (name : String) : String :=
  if MAJOR_ARCANA_ORDER.contains name then "Major" else "Minor"

/-- The expand step: one raw card becomes the upright and the reversed
structured card, in that order. -/
def expandCard (rc : RawCard) : List StructuredCard :=
  let name := rc.name_en
  let arcana := classifyArcana name
  [{ name := name, arcana := arcana, orientation := "upright",
     meaning := rc.upright.getD ("Meaning of " ++ name ++ " upright."),
     source := rc.source.getD "" },
   { name := name, arcana := arcana, orientation := "reversed",
     meaning := rc.reversed.getD ("Meaning of " ++ name ++ " reversed."),
     source := rc.source.getD "" }]

/-- First index of a part that occurs as a substring of the name, else -1:
the `for i, part in enumerate(parts): if part in name: break` loops. -/
def findSubIndex (parts : List String) (name : String) : Int :=
  match parts.findIdx? (fun p => strContains name p) with
  | some i => (i : Int)
  | none => -1

/-- Sort key of get_sort_key.  The source returns a 3-tuple for Major and a
4-tuple for Minor; since the first component (0 vs 1) already separates
the two shapes, padding the Major key with a constant trailing 0 yields
the same lexicographic order on every comparable pair.  `List.indexOf` is
total where Python's `.index` raises, but the Major branch is only ever
reached for names contained in MAJOR_ARCANA_ORDER. -/
def get_sort_key (card : StructuredCard) : Int × Int × Int × Int :=
  let orientation_val : Int := if card.orientation == "upright" then 0 else 1
  if card.arcana == "Major" then
    (0, (MAJOR_ARCANA_ORDER.indexOf card.name : Int), orientation_val, 0)
  else
    (1, findSubIndex MINOR_ARCANA_SUITS card.name,
     findSubIndex MINOR_ARCANA_RANKS card.name, orientation_val)

/-- Lexicographic ≤ on sort keys, as Python compares key tuples. -/
def keyLE (a b : Int × Int × Int × Int) : Bool :=
  if a.1 ≠ b.1 then decide (a.1 < b.1)
  else if a.2.1 ≠ b.2.1 then decide (a.2.1 < b.2.1)
  else if a.2.2.1 ≠ b.2.2.1 then decide (a.2.2.1 < b.2.2.1)
  else decide (a.2.2.2 ≤ b.2.2.2)

/-- Python's sorted(..., key=get_sort_key): a stable merge sort. -/
def sortCards (cards : List StructuredCard) : List StructuredCard :=
  cards.mergeSort (fun a b => keyLE (get_sort_key a) (get_sort_key b))

def finalizeCard (c : StructuredCard) (i : Nat) : CardRecord :=
  { name := c.name, arcana := c.arcana, orientation := c.orientation,
    meaning := c.meaning, source := c.source, id := i }

/-- The `for i, card in enumerate(sorted_cards): card["id"] = i` loop,
started at index i. -/
def assignIdsFrom : List StructuredCard → Nat → List CardRecord
  | [], _ => []
  | c :: rest, i => finalizeCard c i :: assignIdsFrom rest (i + 1)

def assignIds (cards : List StructuredCard) : List CardRecord :=
  assignIdsFrom cards 0

/-- step_process_and_validate_data, from loading raw cards to the saved
output.  A count different from 156 only logs a warning (no abort); the
single abort (`sys.exit(1)`, modelled as none) fires when the assigned
ids contain a duplicate, checked by comparing `len(ids)` with
`len(set(ids))` (the dedup length). -/
def step_process_and_validate_data (raw : List RawCard) : Option (List CardRecord) :=
  let final_cards := assignIds (sortCards (raw.flatMap expandCard))
  let ids := final_cards.map (fun c => c.id)
  if ids.length ≠ ids.dedup.length then none else some final_cards

/-- Rendering of one card as json.dump writes it: keys in dict insertion
order, with "id" last because it is added after sorting. -/
def serializeCard (c : CardRecord) : String :=
  "\x7b\"name\": \"" ++ c.name ++ "\", \"arcana\": \"" ++ c.arcana ++
    "\", \"orientation\": \"" ++ c.orientation ++ "\", \"meaning\": \"" ++ c.meaning ++
    "\", \"source\": \"" ++ c.source ++ "\", \"id\": " ++ toString c.id ++ "\x7d"

/-- Byte rendering of the whole builder output (none when the builder aborted). -/
def serializeCorpus (out : Option (List CardRecord)) : Option String :=
  out.map fun cards => "[" ++ String.intercalate ", " (cards.map serializeCard) ++ "]"

/-! ### Standalone validator: scripts/validate_tarot_json.py -/

/-- One entry of tarot_cards.json as the validator sees it: every required
key may be absent. -/
structure JsonCard where
  id : Option Int
  name : Option String
  arcana : Option String
  orientation : Option String
  meaning : Option String
deriving DecidableEq

def hasRequiredFields (c : JsonCard) : Bool :=
  c.id.isSome && c.name.isSome && c.arcana.isSome && c.orientation.isSome && c.meaning.isSome

/-- validate_tarot_json.main: count must be 156, all required keys present,
no duplicate id, no duplicate (name, orientation).  The script exits at
the first failed check; the conjunction is equivalent. -/
def validate_tarot_main (cards : List JsonCard) : Bool :=
  cards.length == 156 &&
  cards.all hasRequiredFields &&
  (cards.map (fun c => c.id)).dedup.length == cards.length &&
  (cards.map (fun c => (c.name, c.orientation))).dedup.length == cards.length

/-! ### Retrieval query service: services/rag.py -/

/-- Failures the embedding providers can raise (network unreachable; the
service rejected a text). -/
inductive EmbedFailure where
  | providerUnavailable
  | embeddingError
deriving DecidableEq

/-- Error conditions surfacing from RAGService.query.  invalidArgument is
the condition the spec's design taxonomy names for a malformed limit; the
source never raises it. -/
inductive RagError where
  | connectionError
  | embedFail (e : EmbedFailure)
  | invalidArgument
deriving DecidableEq

def isInvalidArgument {β : Type} : Except RagError β → Bool
  | .error .invalidArgument => true
  | _ => false

/-- One hit returned by the vector store: payload plus similarity score.
Scores are modelled as rationals. -/
structure ScoredPoint (α : Type) where
  payload : α
  score : ℚ
deriving DecidableEq

/-- One formatted query result: the payload annotated with its rounded score. -/
structure RetrievalResult (α : Type) where
  payload : α
  score : ℚ
deriving DecidableEq

def SIMILARITY_THRESHOLD : ℚ := 1/2

/-- Python's round-half-to-even on a rational, to integer. -/
def pyRound (q : ℚ) : ℤ :=
  if q - ⌊q⌋ < 1/2 then ⌊q⌋
  else if 1/2 < q - ⌊q⌋ then ⌊q⌋ + 1
  else if 2 ∣ ⌊q⌋ then ⌊q⌋ else ⌊q⌋ + 1

/-- Python's round(q, 4). -/
def round4 (q : ℚ) : ℚ := (pyRound (q * 10000) : ℚ) / 10000

/-- The result-formatting loop of RAGService.query: keep the points at or
above the threshold in order, annotating each with its rounded score. -/
def formatResults {α : Type} (points : List (ScoredPoint α)) : List (RetrievalResult α) :=
  (points.filter fun p => SIMILARITY_THRESHOLD ≤ p.score).map
    fun p => { payload := p.payload, score := round4 p.score }

/-- Supported filter keys of query's filter_params dict; any other key is
ignored by the source, so only these two can influence the search. -/
structure FilterParams where
  arcana : Option String
  orientation : Option String
deriving DecidableEq

/-- One equality condition on a payload field. -/
structure FieldCond where
  key : String
  value : String
deriving DecidableEq

/-- Filter construction in query: conditions for "arcana" then
"orientation" when present; a Filter is built only when at least one
condition exists. -/
def buildSearchFilter (fp : Option FilterParams) : Option (List FieldCond) :=
  match fp with
  | none => none
  | some p =>
    let conditions :=
      (match p.arcana with
       | some a => [{ key := "arcana", value := a : FieldCond }]
       | none => []) ++
      (match p.orientation with
       | some o => [{ key := "orientation", value := o : FieldCond }]
       | none => [])
    if conditions.isEmpty then none else some conditions

/-- RAGService.query.  The embedding provider and the vector store are the
out-of-scope collaborators, passed as oracles: embed may fail like
generate_embedding does, search maps (query vector, limit, filter) to the
store's scored points.  clientOk models whether self._client was
initialized; when it is not, query raises ConnectionError.  No check of
any kind is made on limit, which is forwarded to the store unchanged. -/
def RAGService.query {α : Type} (clientOk : Bool)
    (embed : String → Except EmbedFailure (List ℚ))
    (search : List ℚ → Int → Option (List FieldCond) → List (ScoredPoint α))
    (text : String) (limit : Int) (filter_params : Option FilterParams) :
    Except RagError (List (RetrievalResult α)) :=
  if clientOk = false then .error .connectionError
  else
    match embed text with
    | .error e => .error (.embedFail e)
    | .ok qv => .ok (formatResults (search qv limit (buildSearchFilter filter_params)))

/-! ### Embedding provider adapters: data_pipeline.py -/

namespace OllamaEmbedder

/-- OllamaEmbedder.get_embeddings: one POST per text, in input order,
appending each embedding; the first HTTP failure raises out of the loop,
so no partial list is ever returned.  svc is the Ollama endpoint. -/
def get_embeddings (svc : String → Except EmbedFailure (List ℚ)) :
    List String → Except EmbedFailure (List (List ℚ))
  | [] => .ok []
  | t :: ts =>
    match svc t with
    | .error e => .error e
    | .ok v =>
      match get_embeddings svc ts with
      | .error e => .error e
      | .ok vs => .ok (v :: vs)

/-- OllamaEmbedder.get_dimension: embed the probe string "test" once and
take the length of the first returned vector. -/
def get_dimension (svc : String → Except EmbedFailure (List ℚ)) : Except EmbedFailure Nat :=
  match get_embeddings svc ["test"] with
  | .error e => .error e
  | .ok vs => .ok (vs.headD []).length

end OllamaEmbedder

namespace OpenAIEmbedder

/-- One item of the OpenAI embeddings response. -/
structure EmbeddingItem where
  embedding : List ℚ
deriving DecidableEq

/-- The OpenAI embeddings response body. -/
structure EmbeddingsResponse where
  data : List EmbeddingItem
deriving DecidableEq

/-- OpenAIEmbedder.get_embeddings: a single batch call; the response items
are mapped to their embedding field in order, and any service failure
propagates with no partial result. -/
def get_embeddings (svc : List String → Except EmbedFailure EmbeddingsResponse)
    (texts : List String) : Except EmbedFailure (List (List ℚ)) :=
  match svc texts with
  | .error e => .error e
  | .ok r => .ok (r.data.map EmbeddingItem.embedding)

end OpenAIEmbedder

/-! ### Texts handed to the embedding providers -/

/-- The f-string of data_pipeline.step_embed_and_upload (also used by the
two Ollama prepare scripts). -/
def embedInputText (c : CardRecord) : String :=
  c.name ++ " (" ++ c.orientation ++ "): " ++ c.meaning

/-- texts_to_embed of data_pipeline.step_embed_and_upload. -/
def texts_to_embed (cards : List CardRecord) : List String :=
  cards.map embedInputText

/-- texts of scripts/prepare_tarot_embeddings.py: only the meaning field. -/
def prepare_texts (cards : List CardRecord) : List String :=
  cards.map CardRecord.meaning

/-! ### Collection creation: RAGService.create_collection_if_not_exists -/

/-- A named collection in the vector store with its configured
dimensionality. -/
structure QCollection where
  name : String
  dim : Nat
deriving DecidableEq

/-- create_collection_if_not_exists over an explicit store state (the list
of collections).  Without a client it returns False; if a collection of
the name already exists it returns True leaving the store untouched,
never reading the existing collection's dimension; otherwise it creates
the collection with the given dimension and returns True. -/
def create_collection_if_not_exists (clientOk : Bool) (collectionName : String)
    (embeddingDim : Nat) (st : List QCollection) : Bool × List QCollection :=
  if clientOk = false then (false, st)
  else if (st.map QCollection.name).contains collectionName then (true, st)
  else (true, st ++ [{ name := collectionName, dim := embeddingDim }])

/-! ### Random-draw fallback: services/tarot.py -/

namespace TarotService

/-- Selection without replacement: k picks, each at an index chosen by the
choice stream modulo the current pool size, removing the picked element.
This realizes random.sample's contract (k elements at pairwise-distinct
positions) with the randomness as an explicit oracle. -/
def sampleGo {α : Type} (choice : Nat → Nat) : Nat → List α → Nat → List α
  | 0, _, _ => []
  | _ + 1, [], _ => []
  | k + 1, a :: rest, step =>
    let i := choice step % (a :: rest).length
    (a :: rest).get ⟨i, Nat.mod_lt _ (Nat.succ_pos _)⟩ ::
      sampleGo choice k ((a :: rest).eraseIdx i) (step + 1)

/-- random.sample(population, k): raises (none) unless k ≤ len(population). -/
def sample {α : Type} (population : List α) (k : Nat) (choice : Nat → Nat) :
    Option (List α) :=
  if k ≤ population.length then some (sampleGo choice k population 0) else none

/-- TarotService.draw: clamp n by `n = max(1, min(n, len(cards)))`, then
random.sample(cards, n). -/
def draw {α : Type} (cards : List α) (n : Int) (choice : Nat → Nat) : Option (List α) :=
  let m : Int := max 1 (min n (cards.length : Int))
  sample cards m.toNat choice

end TarotService

/-! ### Helper lemmas on the corpus builder -/

/-- Upright and reversed pair produced for one card name. -/
def namePairs (n : String) : List (String × String) :=
  [(n, "upright"), (n, "reversed")]

lemma assignIdsFrom_length (l : List StructuredCard) (i : Nat) :
    (assignIdsFrom l i).length = l.length := by
  induction l generalizing i with
  | nil => rfl
  | cons c rest ih => simp [assignIdsFrom, ih]

lemma assignIdsFrom_map_id (l : List StructuredCard) (i : Nat) :
    (assignIdsFrom l i).map (fun c => c.id) = List.range' i l.length := by
  induction l generalizing i with
  | nil => rfl
  | cons c rest ih => simp [assignIdsFrom, finalizeCard, List.range'_succ, ih]

lemma assignIdsFrom_map_pair (l : List StructuredCard) (i : Nat) :
    (assignIdsFrom l i).map (fun c => (c.name, c.orientation)) =
      l.map (fun c => (c.name, c.orientation)) := by
  induction l generalizing i with
  | nil => rfl
  | cons c rest ih => simp [assignIdsFrom, finalizeCard, ih]

lemma expand_pairs (raw : List RawCard) :
    (raw.flatMap expandCard).map (fun c => (c.name, c.orientation)) =
      (raw.map RawCard.name_en).flatMap namePairs := by
  induction raw with
  | nil => rfl
  | cons a l ih => simp [expandCard, namePairs, ih]

lemma length_flatMap_expand (raw : List RawCard) :
    (raw.flatMap expandCard).length = 2 * raw.length := by
  induction raw with
  | nil => rfl
  | cons a l ih =>
    simp only [List.flatMap_cons, List.length_append, List.length_cons, ih, expandCard]
    simp
    omega

lemma flatMap_namePairs_nodup {names : List String} (h : names.Nodup) :
    (names.flatMap namePairs).Nodup := by
  induction names with
  | nil => simp
  | cons n rest ih =>
    rw [List.nodup_cons] at h
    obtain ⟨hn, hrest⟩ := h
    rw [List.flatMap_cons, List.nodup_append]
    refine ⟨by simp [namePairs], ih hrest, ?_⟩
    intro x hx hx2
    rw [List.mem_flatMap] at hx2
    obtain ⟨a, ha, hxa⟩ := hx2
    have hfst : x.1 = a := by
      simp only [namePairs, List.mem_cons, List.mem_singleton, List.not_mem_nil,
        or_false] at hxa
      rcases hxa with h1 | h1 <;> simp [h1]
    have hx1 : x.1 = n := by
      simp only [namePairs, List.mem_cons, List.mem_singleton, List.not_mem_nil,
        or_false] at hx
      rcases hx with h1 | h1 <;> simp [h1]
    exact hn (by rw [← hfst, hx1] at ha; exact ha)

lemma step_emits (raw : List RawCard) :
    step_process_and_validate_data raw =
      some (assignIds (sortCards (raw.flatMap expandCard))) := by
  unfold step_process_and_validate_data
  have hids : (assignIds (sortCards (raw.flatMap expandCard))).map (fun c => c.id) =
      List.range (sortCards (raw.flatMap expandCard)).length := by
    rw [assignIds, assignIdsFrom_map_id, List.range_eq_range']
  have hnd : ((assignIds (sortCards (raw.flatMap expandCard))).map
      (fun c => c.id)).Nodup := by
    rw [hids]; exact List.nodup_range _
  have hdedup := List.dedup_eq_self.mpr hnd
  simp [hdedup]

/-! ### C1 -/

/-- A canonical raw fact with arbitrary meanings, as used to instantiate C1. -/
def mkCanonicalFact (n : String) : RawCard :=
  { name_en := n, upright := some ("Upright meaning for " ++ n),
    reversed := some ("Reversed meaning for " ++ n), source := some "src" }

def canonicalRaw : List RawCard := canonicalNames.map mkCanonicalFact

lemma canonicalRaw_names : canonicalRaw.map RawCard.name_en = canonicalNames := by
  unfold canonicalRaw
  rw [List.map_map]
  have : RawCard.name_en ∘ mkCanonicalFact = id := funext fun n => rfl
  rw [this, List.map_id]

/-- C1: on any input whose card names are exactly the 78 canonical names
(22 Major + 56 Minor, in any order, with any meanings), the builder emits
exactly 156 CardRecords, their ids are the contiguous range 0..155 in
list order, and the (name, orientation) pairs are a permutation of the
156 canonical pairs, each occurring exactly once. -/
theorem corpus_builder_canonical_output (raw : List RawCard)
    (hperm : List.Perm (raw.map RawCard.name_en) canonicalNames) :
    ∃ out, step_process_and_validate_data raw = some out ∧
      out.length = 156 ∧
      out.map (fun c => c.id) = List.range 156 ∧
      List.Perm (out.map fun c => (c.name, c.orientation)) (canonicalNames.flatMap namePairs) ∧
      (out.map fun c => (c.name, c.orientation)).Nodup := by
  have hraw : raw.length = 78 := by
    have h := hperm.length_eq
    rw [List.length_map] at h
    simpa using h
  have hslen : (sortCards (raw.flatMap expandCard)).length = 156 := by
    unfold sortCards
    rw [List.length_mergeSort, length_flatMap_expand, hraw]
  have hlen : (assignIds (sortCards (raw.flatMap expandCard))).length = 156 := by
    rw [assignIds, assignIdsFrom_length, hslen]
  have hpairs : List.Perm ((assignIds (sortCards (raw.flatMap expandCard))).map
      fun c => (c.name, c.orientation)) (canonicalNames.flatMap namePairs) := by
    rw [assignIds, assignIdsFrom_map_pair]
    refine ((List.mergeSort_perm _ _).map _).trans ?_
    rw [expand_pairs raw]
    exact hperm.flatMap_right namePairs
  refine ⟨_, step_emits raw, hlen, ?_, hpairs, ?_⟩
  · rw [assignIds, assignIdsFrom_map_id, List.range_eq_range', hslen]
  · rw [hpairs.nodup_iff]
    exact flatMap_namePairs_nodup (by decide)

/-- Witness for C1: the builder applied to the canonical 78-card input. -/
theorem corpus_builder_canonical_output_witness :
    ∃ out, step_process_and_validate_data canonicalRaw = some out ∧
      out.length = 156 ∧
      out.map (fun c => c.id) = List.range 156 ∧
      List.Perm (out.map fun c => (c.name, c.orientation)) (canonicalNames.flatMap namePairs) ∧
      (out.map fun c => (c.name, c.orientation)).Nodup :=
  corpus_builder_canonical_output canonicalRaw
    (by rw [canonicalRaw_names])

/-! ### C3 -/

lemma dedup_length_eq_iff {α : Type} [DecidableEq α] (l : List α) :
    l.dedup.length = l.length ↔ l.Nodup := by
  constructor
  · intro h
    have hsub := List.dedup_sublist l
    rw [← hsub.eq_of_length h]
    exact List.nodup_dedup l
  · intro h
    rw [List.dedup_eq_self.mpr h]

/-- A single raw fact, giving a 2-record "corpus". -/
def soloFact : RawCard :=
  { name_en := "The Fool", upright := some "u", reversed := some "r", source := some "s" }

/-- C3 counterexample: on an input expanding to 2 records (count 2, not
156) the builder still emits its output instead of aborting; the count
mismatch is only a logged warning in the source. -/
theorem builder_emits_despite_bad_count :
    (step_process_and_validate_data [soloFact]).isSome = true ∧
    ((step_process_and_validate_data [soloFact]).getD []).length = 2 := by
  refine ⟨by rw [step_emits]; rfl, ?_⟩
  rw [step_emits, Option.getD_some, assignIds, assignIdsFrom_length]
  rw [sortCards, List.length_mergeSort]
  rfl

/-- C3 amended: the builder aborts only when the assigned ids repeat,
which is impossible since ids come from enumeration, so it emits its
output on every input; the checks the claim lists (count 156, no repeated
(name, orientation), no repeated id, required fields present) are
enforced by the standalone validator script, which accepts exactly the
inputs satisfying all four. -/
theorem builder_never_aborts_validator_rejects :
    (∀ raw : List RawCard, (step_process_and_validate_data raw).isSome = true) ∧
    (∀ cards : List JsonCard, validate_tarot_main cards = true ↔
      (cards.length = 156 ∧ cards.all hasRequiredFields = true ∧
       (cards.map fun c => c.id).Nodup ∧
       (cards.map fun c => (c.name, c.orientation)).Nodup)) := by
  constructor
  · intro raw
    rw [step_emits raw]
    rfl
  · intro cards
    simp only [validate_tarot_main, Bool.and_eq_true, beq_iff_eq]
    constructor
    · rintro ⟨⟨⟨h1, h2⟩, h3⟩, h4⟩
      refine ⟨h1, h2, ?_, ?_⟩
      · rw [← dedup_length_eq_iff, List.length_map]
        exact h3
      · rw [← dedup_length_eq_iff, List.length_map]
        exact h4
    · rintro ⟨h1, h2, h3, h4⟩
      refine ⟨⟨⟨h1, h2⟩, ?_⟩, ?_⟩
      · rw [List.dedup_eq_self.mpr h3, List.length_map]
      · rw [List.dedup_eq_self.mpr h4, List.length_map]

/-! ### C4 -/

lemma mem_assignIdsFrom {r : CardRecord} :
    ∀ {l : List StructuredCard} {i : Nat}, r ∈ assignIdsFrom l i →
      ∃ c ∈ l, r.name = c.name ∧ r.arcana = c.arcana
  | [], _, h => absurd h (List.not_mem_nil r)
  | c :: rest, i, h => by
    rcases List.mem_cons.mp h with h1 | h1
    · exact ⟨c, List.mem_cons_self c rest, by rw [h1]; exact rfl, by rw [h1]; exact rfl⟩
    · obtain ⟨c2, hc2, hn, ha⟩ := mem_assignIdsFrom h1
      exact ⟨c2, List.mem_cons_of_mem c hc2, hn, ha⟩

lemma classify_major {n : String} (h : classifyArcana n = "Major") :
    n ∈ MAJOR_ARCANA_ORDER := by
  unfold classifyArcana at h
  by_cases hc : MAJOR_ARCANA_ORDER.contains n
  · simpa using hc
  · rw [if_neg hc] at h
    exact absurd h (by decide)

/-- A raw fact whose name is in no canonical list. -/
def unknownFact : RawCard :=
  { name_en := "Atlantis", upright := some "u", reversed := some "r", source := some "s" }

/-- C4 counterexample: a fact whose name is not among the 22 canonical
Major names is not rejected; the builder classifies it as Minor and emits
its records. -/
theorem builder_accepts_unknown_name :
    (step_process_and_validate_data [unknownFact]).isSome = true ∧
    ((step_process_and_validate_data [unknownFact]).getD []).all
      (fun r => r.arcana == "Minor") = true := by
  refine ⟨by rw [step_emits]; rfl, ?_⟩
  rw [step_emits, Option.getD_some, List.all_eq_true]
  intro r hr
  rw [assignIds] at hr
  obtain ⟨c, hc, _, ha⟩ := mem_assignIdsFrom hr
  have hc2 : c ∈ ([unknownFact] : List RawCard).flatMap expandCard :=
    (List.mergeSort_perm _ _).subset hc
  have hm : c.arcana = "Minor" := by
    simp only [List.flatMap_cons, List.flatMap_nil, List.append_nil, expandCard,
      List.mem_cons, List.not_mem_nil, or_false] at hc2
    rcases hc2 with h | h <;> rw [h] <;> decide
  rw [ha, hm]
  decide

/-- C4 amended: the builder never fails on names at all; classification is
by membership in the canonical list, so every emitted record whose arcana
is "Major" has a name from the canonical 22-name list, and a
non-canonical name is classified "Minor" and still emitted. -/
theorem major_records_have_canonical_names (raw : List RawCard) (r : CardRecord)
    (hr : r ∈ (step_process_and_validate_data raw).getD [])
    (hmaj : r.arcana = "Major") :
    r.name ∈ MAJOR_ARCANA_ORDER := by
  rw [step_emits raw] at hr
  simp only [Option.getD_some] at hr
  rw [assignIds] at hr
  obtain ⟨c, hc, hname, harc⟩ := mem_assignIdsFrom hr
  have hc2 : c ∈ raw.flatMap expandCard := (List.mergeSort_perm _ _).subset hc
  rw [List.mem_flatMap] at hc2
  obtain ⟨rc, _, hcm⟩ := hc2
  simp only [expandCard, List.mem_cons, List.mem_singleton, List.not_mem_nil,
    or_false] at hcm
  have harc2 : classifyArcana rc.name_en = "Major" := by
    rcases hcm with h | h <;> rw [h] at harc <;> exact harc.symm.trans hmaj
  have hname2 : r.name = rc.name_en := by
    rcases hcm with h | h <;> rw [h] at hname <;> exact hname
  rw [hname2]
  exact classify_major harc2

/-- The upright record the builder produces first from soloFact. -/
def foolRecUp : CardRecord :=
  { name := "The Fool", arcana := "Major", orientation := "upright",
    meaning := "u", source := "s", id := 0 }

/-- Witness for C4's amended theorem at the concrete input [soloFact]. -/
lemma step_solo_mem : foolRecUp ∈ (step_process_and_validate_data [soloFact]).getD [] := by
  rw [step_emits, Option.getD_some]
  simp +decide [sortCards, List.mergeSort, List.splitInTwo, List.splitAt, List.splitAt.go,
    List.merge, expandCard, soloFact, keyLE, get_sort_key, classifyArcana, assignIds,
    assignIdsFrom, finalizeCard, foolRecUp]

/-- Witness for C4's amended theorem at the concrete input [soloFact]. -/
theorem major_records_have_canonical_names_witness :
    foolRecUp ∈ (step_process_and_validate_data [soloFact]).getD [] ∧
    "The Fool" ∈ MAJOR_ARCANA_ORDER :=
  ⟨step_solo_mem,
   major_records_have_canonical_names [soloFact] foolRecUp step_solo_mem (by decide)⟩

/-! ### C5 -/

/-- C5: the builder is deterministic; two runs on identical input yield
byte-identical serialized output.  The embedding is a pure function of
the input (Python's sorted is a deterministic stable sort and the
pipeline reads no other state), so the two runs coincide. -/
theorem corpus_builder_deterministic (raw1 raw2 : List RawCard) (h : raw1 = raw2) :
    serializeCorpus (step_process_and_validate_data raw1) =
      serializeCorpus (step_process_and_validate_data raw2) := by
  rw [h]

/-- Witness for C5 at a concrete input. -/
theorem corpus_builder_deterministic_witness :
    serializeCorpus (step_process_and_validate_data [soloFact]) =
      serializeCorpus (step_process_and_validate_data [soloFact]) :=
  corpus_builder_deterministic [soloFact] [soloFact] rfl

/-! ### C2: rounding lemmas and the query contract -/

lemma pyRound_ge_floor (q : ℚ) : ⌊q⌋ ≤ pyRound q := by
  unfold pyRound
  split_ifs <;> omega

lemma pyRound_le_floor_add_one (q : ℚ) : pyRound q ≤ ⌊q⌋ + 1 := by
  unfold pyRound
  split_ifs <;> omega

lemma pyRound_mono {p q : ℚ} (h : p ≤ q) : pyRound p ≤ pyRound q := by
  rcases lt_or_eq_of_le (Int.floor_le_floor h) with hf | hf
  · calc pyRound p ≤ ⌊p⌋ + 1 := pyRound_le_floor_add_one p
      _ ≤ ⌊q⌋ := by omega
      _ ≤ pyRound q := pyRound_ge_floor q
  · unfold pyRound
    rw [← hf]
    split_ifs <;> first | omega | linarith

lemma round4_ge_half {q : ℚ} (h : 1/2 ≤ q) : 1/2 ≤ round4 q := by
  unfold round4
  have h1 : (5000 : ℤ) ≤ ⌊q * 10000⌋ := by
    apply Int.le_floor.mpr
    push_cast
    linarith
  have h2 : (5000 : ℤ) ≤ pyRound (q * 10000) := le_trans h1 (pyRound_ge_floor _)
  have h3 : (5000 : ℚ) ≤ (pyRound (q * 10000) : ℚ) := by exact_mod_cast h2
  linarith

lemma round4_mono {p q : ℚ} (h : p ≤ q) : round4 p ≤ round4 q := by
  unfold round4
  have h1 := pyRound_mono (show p * 10000 ≤ q * 10000 by linarith)
  have h2 : (pyRound (p * 10000) : ℚ) ≤ (pyRound (q * 10000) : ℚ) := by exact_mod_cast h1
  linarith

/-- C2: whenever the client is initialized, embedding succeeds, and the
store answers the search (honoring the requested limit and returning its
hits in descending score order), query returns without error a result
list that has at most limit entries, whose every entry scores at least
the 0.5 threshold, that is descending by score, that preserves the
store's rank order (it is a sublist of the annotated store response), and
whose every entry is a store payload annotated with its rounded score. -/
theorem rag_query_contract {α : Type} (clientOk : Bool)
    (embed : String → Except EmbedFailure (List ℚ))
    (search : List ℚ → Int → Option (List FieldCond) → List (ScoredPoint α))
    (text : String) (limit : Int) (fp : Option FilterParams)
    (qv : List ℚ) (resp : List (ScoredPoint α))
    (hclient : clientOk = true)
    (hembed : embed text = .ok qv)
    (hresp : search qv limit (buildSearchFilter fp) = resp)
    (hlen : resp.length ≤ limit.toNat)
    (hsorted : resp.Pairwise (fun a b => b.score ≤ a.score)) :
    ∃ res, RAGService.query clientOk embed search text limit fp = .ok res ∧
      res.length ≤ limit.toNat ∧
      (∀ r ∈ res, SIMILARITY_THRESHOLD ≤ r.score) ∧
      res.Pairwise (fun a b => b.score ≤ a.score) ∧
      res.Sublist (resp.map fun p => { payload := p.payload, score := round4 p.score }) ∧
      (∀ r ∈ res, ∃ p ∈ resp, r.payload = p.payload ∧ r.score = round4 p.score) := by
  refine ⟨formatResults resp, ?_, ?_, ?_, ?_, ?_, ?_⟩
  · simp only [RAGService.query, hclient, hembed, hresp]
    simp
  · unfold formatResults
    rw [List.length_map]
    exact le_trans (List.length_filter_le _ _) hlen
  · intro r hr
    unfold formatResults at hr
    rw [List.mem_map] at hr
    obtain ⟨p, hp, hpr⟩ := hr
    have hscore := of_decide_eq_true (List.mem_filter.mp hp).2
    rw [← hpr]
    exact round4_ge_half hscore
  · unfold formatResults
    exact (hsorted.filter _).map _ (fun a b hab => round4_mono hab)
  · unfold formatResults
    exact (List.filter_sublist _).map _
  · intro r hr
    unfold formatResults at hr
    rw [List.mem_map] at hr
    obtain ⟨p, hp, hpr⟩ := hr
    exact ⟨p, List.mem_of_mem_filter hp, by rw [← hpr], by rw [← hpr]⟩

/-- Concrete store response used to witness C2. -/
def wResp : List (ScoredPoint String) :=
  [{ payload := "cardA", score := 9/10 },
   { payload := "cardB", score := 3/5 },
   { payload := "cardC", score := 2/5 }]

def wEmbed : String → Except EmbedFailure (List ℚ) := fun _ => .ok [1]

def wSearch : List ℚ → Int → Option (List FieldCond) → List (ScoredPoint String) :=
  fun _ _ _ => wResp

/-- Witness for C2 at a concrete query against a three-hit store response. -/
theorem rag_query_contract_witness :
    ∃ res, RAGService.query true wEmbed wSearch "death" 5 none = .ok res ∧
      res.length ≤ (5 : Int).toNat ∧
      (∀ r ∈ res, SIMILARITY_THRESHOLD ≤ r.score) ∧
      res.Pairwise (fun a b => b.score ≤ a.score) ∧
      res.Sublist (wResp.map fun p => { payload := p.payload, score := round4 p.score }) ∧
      (∀ r ∈ res, ∃ p ∈ wResp, r.payload = p.payload ∧ r.score = round4 p.score) :=
  rag_query_contract true wEmbed wSearch "death" 5 none [1] wResp rfl rfl rfl
    (by decide) (by norm_num [wResp, List.pairwise_cons])

/-! ### C6 -/

/-- Instrumented store oracle answering only to a search issued with limit
0, used to observe that query forwards a non-positive limit. -/
def probeSearch : List ℚ → Int → Option (List FieldCond) → List (ScoredPoint String) :=
  fun _ lim _ =>
    if lim == 0 then [{ payload := "search-called-with-limit-0", score := 9/10 }] else []

/-- C6 counterexample: a query with limit 0 is not rejected with
InvalidArgument; query runs the embedding call, forwards limit 0 to the
store (witnessed by the sentinel payload only the limit-0 search
returns), and returns ok. -/
theorem query_accepts_nonpositive_limit :
    RAGService.query true wEmbed probeSearch "hello" 0 none =
      .ok [{ payload := "search-called-with-limit-0", score := round4 (9/10) }] := by
  have h : decide (SIMILARITY_THRESHOLD ≤ (9 : ℚ)/10) = true := by
    rw [decide_eq_true_eq]
    norm_num [SIMILARITY_THRESHOLD]
  simp [RAGService.query, wEmbed, probeSearch, formatResults, h]

/-- C6 amended: the source performs no validation of limit at all; query
never produces an InvalidArgument condition, for any limit including
non-positive ones (the value is forwarded unchanged to the store). -/
theorem query_never_rejects_limit {α : Type} (clientOk : Bool)
    (embed : String → Except EmbedFailure (List ℚ))
    (search : List ℚ → Int → Option (List FieldCond) → List (ScoredPoint α))
    (text : String) (limit : Int) (fp : Option FilterParams) :
    isInvalidArgument (RAGService.query clientOk embed search text limit fp) = false := by
  unfold RAGService.query
  by_cases hc : clientOk = false
  · rw [if_pos hc]
    rfl
  · rw [if_neg hc]
    cases hembed : embed text with
    | error e => rfl
    | ok qv => rfl

/-! ### C7 -/

/-- A concrete corpus record used to exhibit the embedded-text divergence. -/
def sampleDeathCard : CardRecord :=
  { name := "Death", arcana := "Major", orientation := "upright",
    meaning := "endings and transformation", source := "src", id := 26 }

/-- C7 counterexample: prepare_tarot_embeddings.py hands the provider only
the meaning string, which differs from the "name (orientation): meaning"
format the claim states. -/
theorem prepare_embeds_meaning_only :
    prepare_texts [sampleDeathCard] = ["endings and transformation"] ∧
    (("endings and transformation" : String) == embedInputText sampleDeathCard) = false := by
  constructor
  · rfl
  · decide

/-- C7 amended: in data_pipeline.step_embed_and_upload the text handed to
the provider for each record is exactly "name (orientation): meaning",
while the legacy prepare_tarot_embeddings.py script hands only the raw
meaning field. -/
theorem embedding_text_formats (cards : List CardRecord) :
    texts_to_embed cards =
      cards.map (fun c => c.name ++ " (" ++ c.orientation ++ "): " ++ c.meaning) ∧
    prepare_texts cards = cards.map CardRecord.meaning :=
  ⟨rfl, rfl⟩

/-! ### C8 -/

lemma ollama_get_embeddings_ok (svc : String → Except EmbedFailure (List ℚ)) :
    ∀ (l : List String) (out : List (List ℚ)),
      OllamaEmbedder.get_embeddings svc l = .ok out →
      out.length = l.length ∧
      ∀ i (h1 : i < l.length) (h2 : i < out.length),
        svc (l.get ⟨i, h1⟩) = .ok (out.get ⟨i, h2⟩) := by
  intro l
  induction l with
  | nil =>
    intro out h
    simp only [OllamaEmbedder.get_embeddings] at h
    injection h with h2
    rw [← h2]
    exact ⟨rfl, fun i h1 _ => absurd h1 (Nat.not_lt_zero i)⟩
  | cons t ts ih =>
    intro out h
    simp only [OllamaEmbedder.get_embeddings] at h
    cases hsvc : svc t with
    | error e => rw [hsvc] at h; exact absurd h (by simp)
    | ok v =>
      rw [hsvc] at h
      cases hrec : OllamaEmbedder.get_embeddings svc ts with
      | error e => rw [hrec] at h; exact absurd h (by simp)
      | ok vs =>
        rw [hrec] at h
        injection h with h2
        rw [← h2]
        obtain ⟨hlen, hidx⟩ := ih vs hrec
        refine ⟨by simpa using hlen, ?_⟩
        intro i h1 h2
        match i with
        | 0 => exact hsvc
        | j + 1 =>
          exact hidx j (by simpa using h1) (by simp at h2; omega)

lemma ollama_get_embeddings_fails (svc : String → Except EmbedFailure (List ℚ)) :
    ∀ (l : List String) (t : String), t ∈ l → ∀ e, svc t = .error e →
      ∃ e2, OllamaEmbedder.get_embeddings svc l = .error e2 := by
  intro l
  induction l with
  | nil => intro t ht; exact absurd ht (by simp)
  | cons a ts ih =>
    intro t ht e he
    rcases List.mem_cons.mp ht with h1 | h1
    · refine ⟨e, ?_⟩
      simp only [OllamaEmbedder.get_embeddings]
      rw [← h1, he]
    · cases hsvc : svc a with
      | error e3 =>
        refine ⟨e3, ?_⟩
        simp only [OllamaEmbedder.get_embeddings]
        rw [hsvc]
      | ok v =>
        obtain ⟨e2, h2⟩ := ih t h1 e he
        refine ⟨e2, ?_⟩
        simp only [OllamaEmbedder.get_embeddings]
        rw [hsvc, h2]

/-- C8: for both adapter variants, a successful embed of N texts returns
exactly N vectors in input order, each of the provider's fixed dimension
d, and any provider failure fails the whole batch with no partial list.
For the per-text Ollama loop, output i is the answer the provider gave
for texts i, and a failure on any text in the batch fails the call.  For
the batch OpenAI call, output i is the embedding of response item i,
which the provider contract ties to texts i (one item per input, in
order), and a failed batch call propagates the error unchanged.  The
hypotheses are the provider contracts: svc answers each text with a
vector of length d, bsvc answers a batch with one item per input of
length d. -/
theorem embedder_batch_contract
    (svc : String → Except EmbedFailure (List ℚ))
    (bsvc : List String → Except EmbedFailure OpenAIEmbedder.EmbeddingsResponse)
    (d : Nat) (texts : List String)
    (hdim : ∀ t v, svc t = .ok v → v.length = d)
    (hbatch : ∀ ts r, bsvc ts = .ok r →
      r.data.length = ts.length ∧ ∀ it ∈ r.data, it.embedding.length = d) :
    (∀ out, OllamaEmbedder.get_embeddings svc texts = .ok out →
      out.length = texts.length ∧
      (∀ i (h1 : i < texts.length) (h2 : i < out.length),
        svc (texts.get ⟨i, h1⟩) = .ok (out.get ⟨i, h2⟩)) ∧
      ∀ v ∈ out, v.length = d) ∧
    (∀ t ∈ texts, ∀ e, svc t = .error e →
      ∃ e2, OllamaEmbedder.get_embeddings svc texts = .error e2) ∧
    (∀ r out, bsvc texts = .ok r →
      OpenAIEmbedder.get_embeddings bsvc texts = .ok out →
      out.length = texts.length ∧
      r.data.length = texts.length ∧
      (∀ i (h1 : i < r.data.length) (h2 : i < out.length),
        out.get ⟨i, h2⟩ = (r.data.get ⟨i, h1⟩).embedding) ∧
      ∀ v ∈ out, v.length = d) ∧
    (∀ e, bsvc texts = .error e →
      OpenAIEmbedder.get_embeddings bsvc texts = .error e) := by
  refine ⟨?_, ?_, ?_, ?_⟩
  · intro out h
    obtain ⟨hlen, hidx⟩ := ollama_get_embeddings_ok svc texts out h
    refine ⟨hlen, hidx, ?_⟩
    intro v hv
    obtain ⟨i, hi⟩ := List.mem_iff_get.mp hv
    have h1 : (i : Nat) < texts.length := by
      have := i.isLt
      omega
    exact hdim (texts.get ⟨i, h1⟩) v (by rw [← hi]; exact hidx i h1 i.isLt)
  · intro t ht e he
    exact ollama_get_embeddings_fails svc texts t ht e he
  · intro r out hb h
    unfold OpenAIEmbedder.get_embeddings at h
    rw [hb] at h
    injection h with h2
    obtain ⟨hlen, hitems⟩ := hbatch texts r hb
    rw [← h2]
    refine ⟨by rw [List.length_map, hlen], hlen, ?_, ?_⟩
    · intro i h1 h2
      simp
    · intro v hv
      obtain ⟨it, hit, hvit⟩ := List.mem_map.mp hv
      rw [← hvit]
      exact hitems it hit
  · intro e he
    unfold OpenAIEmbedder.get_embeddings
    rw [he]

/-- Constant-response providers used to witness C8. -/
def wsvc : String → Except EmbedFailure (List ℚ) := fun _ => .ok [0, 1]

def wbsvc : List String → Except EmbedFailure OpenAIEmbedder.EmbeddingsResponse :=
  fun ts => .ok { data := ts.map fun _ => { embedding := [0, 1] } }

/-- Witness for C8: both adapters on two texts against the concrete
providers return the two 2-dimensional vectors. -/
theorem embedder_batch_contract_witness :
    OllamaEmbedder.get_embeddings wsvc ["a", "b"] = .ok [[0, 1], [0, 1]] ∧
    OpenAIEmbedder.get_embeddings wbsvc ["a", "b"] = .ok [[0, 1], [0, 1]] ∧
    ([[0, 1], [0, 1]] : List (List ℚ)).length = (["a", "b"] : List String).length :=
  ⟨rfl, rfl,
   ((embedder_batch_contract wsvc wbsvc 2 ["a", "b"]
       (fun t v h => by injection h with h2; rw [← h2]; rfl)
       (fun ts r h => by
         injection h with h2
         rw [← h2]
         constructor
         · rw [List.length_map]
         · intro it hit
           obtain ⟨x, _, hx⟩ := List.mem_map.mp hit
           rw [← hx]
           rfl)).1
     [[0, 1], [0, 1]] rfl).1⟩

/-! ### C9 -/

lemma filter_name_length (nm : String) :
    ∀ (st : List QCollection), (st.map QCollection.name).Nodup →
      (st.filter fun c => c.name == nm).length =
        if (st.map QCollection.name).contains nm then 1 else 0 := by
  intro st
  induction st with
  | nil => intro _; simp
  | cons c rest ih =>
    intro h
    rw [List.map_cons, List.nodup_cons] at h
    obtain ⟨hn, hrest⟩ := h
    rw [List.filter_cons, List.map_cons, List.contains_cons]
    by_cases hc : c.name = nm
    · have hnotin : ((rest.map QCollection.name).contains nm) = false := by
        subst hc
        simpa using hn
      rw [if_pos (by simp [hc])]
      rw [List.length_cons, ih hrest, hnotin]
      simp [hc]
    · have h1 : (c.name == nm) = false := by simpa using hc
      have h2 : (nm == c.name) = false := by
        simp only [beq_eq_false_iff_ne, ne_eq]
        exact fun he => hc he.symm
      rw [if_neg (by simp [h1]), ih hrest, h2]
      simp

/-- C9: create_collection_if_not_exists is idempotent.  After one call
with any configured dimension, a second call with the same arguments
returns success and leaves the store unchanged; exactly one collection of
the name is present; and when a collection of the name already exists the
call is a no-op returning success whatever the existing collection's
dimension is — the source never reads it (the known verification gap). -/
theorem ensure_collection_idempotent (nm : String) (d : Nat) (st : List QCollection)
    (hnodup : (st.map QCollection.name).Nodup) :
    create_collection_if_not_exists true nm d
        (create_collection_if_not_exists true nm d st).2 =
      (true, (create_collection_if_not_exists true nm d st).2) ∧
    ((create_collection_if_not_exists true nm d st).2.filter
        fun c => c.name == nm).length = 1 ∧
    (∀ c0 ∈ st, c0.name = nm →
      create_collection_if_not_exists true nm d st = (true, st)) := by
  by_cases hc : ((st.map QCollection.name).contains nm) = true
  · have h1 : create_collection_if_not_exists true nm d st = (true, st) := by
      unfold create_collection_if_not_exists
      rw [if_neg (by simp), if_pos hc]
    refine ⟨by rw [h1, h1], ?_, fun _ _ _ => h1⟩
    rw [h1, filter_name_length nm st hnodup, if_pos hc]
  · have h1 : create_collection_if_not_exists true nm d st =
        (true, st ++ [{ name := nm, dim := d }]) := by
      unfold create_collection_if_not_exists
      rw [if_neg (by simp), if_neg hc]
    have h2 : (((st ++ [({ name := nm, dim := d } : QCollection)]).map
        QCollection.name).contains nm) = true := by
      simp
    refine ⟨?_, ?_, ?_⟩
    · rw [h1]
      unfold create_collection_if_not_exists
      rw [if_neg (by simp), if_pos h2]
    · rw [h1, List.filter_append, List.length_append,
        filter_name_length nm st hnodup, if_neg hc]
      simp
    · intro c0 hc0 hname
      have hmem : nm ∈ st.map QCollection.name := by
        rw [← hname]
        exact List.mem_map_of_mem QCollection.name hc0
      exact absurd (by simpa using hmem) hc

/-- Concrete store used to witness C9: the collection already exists with
dimension 768 while the call configures 999. -/
def wStore : List QCollection :=
  [{ name := "other", dim := 3 }, { name := "tarot", dim := 768 }]

/-- Witness for C9 at the concrete two-collection store. -/
theorem ensure_collection_idempotent_witness :
    create_collection_if_not_exists true "tarot" 999
        (create_collection_if_not_exists true "tarot" 999 wStore).2 =
      (true, (create_collection_if_not_exists true "tarot" 999 wStore).2) ∧
    ((create_collection_if_not_exists true "tarot" 999 wStore).2.filter
        fun c => c.name == "tarot").length = 1 ∧
    (∀ c0 ∈ wStore, c0.name = "tarot" →
      create_collection_if_not_exists true "tarot" 999 wStore = (true, wStore)) :=
  ensure_collection_idempotent "tarot" 999 wStore (by decide)

/-! ### C10 -/

lemma sampleGo_cons {α : Type} (choice : Nat → Nat) (k : Nat) (a : α)
    (rest : List α) (step : Nat) :
    TarotService.sampleGo choice (k + 1) (a :: rest) step =
      (a :: rest).get ⟨choice step % (a :: rest).length,
          Nat.mod_lt _ (Nat.succ_pos rest.length)⟩ ::
        TarotService.sampleGo choice k
          ((a :: rest).eraseIdx (choice step % (a :: rest).length)) (step + 1) := rfl

lemma length_eraseIdx_mod {α : Type} (a : α) (rest : List α) (i : Nat) :
    ((a :: rest).eraseIdx (i % (a :: rest).length)).length = rest.length := by
  have hi : i % (a :: rest).length < (a :: rest).length :=
    Nat.mod_lt _ (Nat.succ_pos rest.length)
  rw [List.length_eraseIdx_of_lt hi]
  simp

lemma sampleGo_length {α : Type} (choice : Nat → Nat) :
    ∀ (k : Nat) (pool : List α) (step : Nat), k ≤ pool.length →
      (TarotService.sampleGo choice k pool step).length = k := by
  intro k
  induction k with
  | zero => intro pool step _; rfl
  | succ k ih =>
    intro pool step h
    match pool with
    | [] => exact absurd h (by simp)
    | a :: rest =>
      rw [sampleGo_cons, List.length_cons,
        ih _ (step + 1) (by
          rw [length_eraseIdx_mod]
          exact Nat.le_of_succ_le_succ h)]

lemma sampleGo_subset {α : Type} (choice : Nat → Nat) :
    ∀ (k : Nat) (pool : List α) (step : Nat) (x : α),
      x ∈ TarotService.sampleGo choice k pool step → x ∈ pool := by
  intro k
  induction k with
  | zero => intro pool step x hx; exact absurd hx (by simp [TarotService.sampleGo])
  | succ k ih =>
    intro pool step x hx
    match pool with
    | [] => exact absurd hx (by simp [TarotService.sampleGo])
    | a :: rest =>
      rw [sampleGo_cons] at hx
      rcases List.mem_cons.mp hx with h1 | h1
      · rw [h1]
        exact List.get_mem _ _ _
      · exact (List.eraseIdx_sublist _ _).subset (ih _ _ x h1)

lemma get_not_mem_eraseIdx {α : Type} :
    ∀ (l : List α) (i : Nat) (h : i < l.length), l.Nodup →
      l.get ⟨i, h⟩ ∈ l.eraseIdx i → False := by
  intro l
  induction l with
  | nil => intro i h; exact absurd h (by simp)
  | cons a rest ih =>
    intro i h hnd hmem
    rw [List.nodup_cons] at hnd
    obtain ⟨ha, hrest⟩ := hnd
    match i with
    | 0 => exact ha hmem
    | j + 1 =>
      simp only [List.eraseIdx_cons_succ, List.get_cons_succ] at hmem
      rcases List.mem_cons.mp hmem with h1 | h1
      · exact ha (h1 ▸ List.get_mem _ _ _)
      · exact ih j (by simpa using h) hrest h1

lemma sampleGo_nodup {α : Type} (choice : Nat → Nat) :
    ∀ (k : Nat) (pool : List α) (step : Nat), k ≤ pool.length → pool.Nodup →
      (TarotService.sampleGo choice k pool step).Nodup := by
  intro k
  induction k with
  | zero => intro pool step _ _; simp [TarotService.sampleGo]
  | succ k ih =>
    intro pool step h hnd
    match pool with
    | [] => exact absurd h (by simp)
    | a :: rest =>
      have hi : choice step % (a :: rest).length < (a :: rest).length :=
        Nat.mod_lt _ (Nat.succ_pos rest.length)
      rw [sampleGo_cons, List.nodup_cons]
      constructor
      · intro hmem
        exact get_not_mem_eraseIdx (a :: rest) _ hi hnd
          (sampleGo_subset choice k _ (step + 1) _ hmem)
      · apply ih
        · rw [length_eraseIdx_mod]
          exact Nat.le_of_succ_le_succ h
        · exact ((List.eraseIdx_sublist _ _).nodup hnd)

/-- C10: draw clamps any integer n (zero and negatives included) into
[1, len(cards)] and returns, without raising, exactly that many records,
all drawn from the loaded cards at pairwise-distinct positions (nodup
output for a nodup corpus); draw of a non-positive n returns exactly one
card.  The only hypothesis is that some cards are loaded, as with the
repository's 156-record corpus file. -/
theorem draw_clamps_and_samples {α : Type} (cards : List α) (n : Int)
    (choice : Nat → Nat) (hne : 0 < cards.length) :
    ∃ res, TarotService.draw cards n choice = some res ∧
      res.length = (max 1 (min n (cards.length : Int))).toNat ∧
      1 ≤ res.length ∧ res.length ≤ cards.length ∧
      (∀ r ∈ res, r ∈ cards) ∧
      (cards.Nodup → res.Nodup) ∧
      (n ≤ 0 → res.length = 1) := by
  have hlen1 : (1 : Int) ≤ (cards.length : Int) := by exact_mod_cast hne
  have hm2 : max 1 (min n (cards.length : Int)) ≤ (cards.length : Int) :=
    max_le hlen1 (min_le_right _ _)
  have hm1 : (1 : Int) ≤ max 1 (min n (cards.length : Int)) := le_max_left _ _
  have hk : (max 1 (min n (cards.length : Int))).toNat ≤ cards.length := by omega
  have hkpos : 1 ≤ (max 1 (min n (cards.length : Int))).toNat := by omega
  have hdraw : TarotService.draw cards n choice =
      some (TarotService.sampleGo choice
        (max 1 (min n (cards.length : Int))).toNat cards 0) := by
    unfold TarotService.draw TarotService.sample
    rw [if_pos hk]
  have hslen := sampleGo_length choice _ cards 0 hk
  refine ⟨_, hdraw, hslen, ?_, ?_, ?_, ?_, ?_⟩
  · rw [hslen]; exact hkpos
  · rw [hslen]; exact hk
  · intro r hr
    exact sampleGo_subset choice _ cards 0 r hr
  · intro hnd
    exact sampleGo_nodup choice _ cards 0 hk hnd
  · intro hle
    rw [hslen]
    have hminn : min n (cards.length : Int) = n := min_eq_left (by omega)
    have hmaxn : max 1 (min n (cards.length : Int)) = 1 := by
      rw [hminn]
      exact max_eq_left (by omega)
    rw [hmaxn]
    rfl

/-- Witness for C10: a negative draw count over a three-card list. -/
theorem draw_clamps_and_samples_witness :
    ∃ res, TarotService.draw ["a", "b", "c"] (-5) (fun s => s) = some res ∧
      res.length = (max 1 (min (-5) ((["a", "b", "c"] : List String).length : Int))).toNat ∧
      1 ≤ res.length ∧ res.length ≤ (["a", "b", "c"] : List String).length ∧
      (∀ r ∈ res, r ∈ (["a", "b", "c"] : List String)) ∧
      ((["a", "b", "c"] : List String).Nodup → res.Nodup) ∧
      ((-5 : Int) ≤ 0 → res.length = 1) :=
  draw_clamps_and_samples ["a", "b", "c"] (-5) (fun s => s) (by decide)

end HealMate

